import Mathlib

/-! # prometheus-alerts: `example/query_alert/main.go`

A shallow embedding of the shard-limit alert script: the reduction of a decoded
Prometheus response to one record per shard (`NewCategoryShardStatusList`), the
threshold filter and sort of `main`, and the table built by `MarkdownMessage`.

Go strings are modelled by `String` (`len` is the UTF-8 byte size), Go `int` by
`Int` with the 64-bit range made explicit where `strconv.Atoi` checks it, and
the Go map by an association list with unique keys whose iteration order is left
free.
-/

namespace QueryAlert

/-! ## Decoded response -/

/-- A `float64` held in an `interface{}`, given by its IEEE-754 bit pattern.
Floating-point arithmetic is not modelled. -/
structure Float64 where
  bits : Nat
  deriving DecidableEq, Repr

/-- The dynamic values `encoding/json` stores in an `interface{}`. -/
inductive JSONValue where
  | null
  | bool (b : Bool)
  | number (f : Float64)
  | string (s : String)
  | array (items : List JSONValue)
  | object (fields : List (String × JSONValue))

/-- The `%T` rendering of a decoded value. -/
def JSONValue.goType : JSONValue → String
  | .null => "<nil>"
  | .bool _ => "bool"
  | .number _ => "float64"
  | .string _ => "string"
  | .array _ => "[]interface \x7b\x7d"
  | .object _ => "map[string]interface \x7b\x7d"

/-- The struct `PrometheusResultMetric`. -/
structure PrometheusResultMetric where
  Name : String
  Shard : String
  ShardType : String
  deriving DecidableEq, Repr

/-- The struct `PrometheusResult`; a missing or `null` value array is the empty list. -/
structure PrometheusResult where
  Metric : PrometheusResultMetric
  Value : List JSONValue

/-- The struct `PrometheusData`. -/
structure PrometheusData where
  ResultType : String
  Result : List PrometheusResult

/-- The struct `PrometheusResponse`. -/
structure PrometheusResponse where
  Data : PrometheusData
  Status : String
  ErrorType : String
  Error : String
  Warnings : List String

/-! ## Records -/

/-- The instant `time.Unix(int64(sec), int64(dec*1e9))` with
`sec, dec := math.Modf(value)`: a total function of the timestamp number, kept
as the number it is computed from. -/
structure Time where
  unixOf : Float64
  deriving DecidableEq, Repr

/-- The struct `CategoryShardStatus`. -/
structure CategoryShardStatus where
  Shard : String
  FreeProductSlots : Int
  Time : Time
  deriving DecidableEq, Repr

/-- The slice type `CategoryShardStatusList`. -/
abbrev CategoryShardStatusList := List CategoryShardStatus

/-! ## `strconv.Atoi` -/

/-- The two errors of `strconv`: `ErrSyntax` and `ErrRange`, with the input. -/
inductive NumError where
  | syntaxError (num : String)
  | rangeError (num : String)
  deriving DecidableEq, Repr

/-- The digit loop of `strconv.ParseUint` in base 10 on 64 bits, left to right:
a byte that is not `0`..`9` is a syntax error, a value that leaves the `uint64`
range is a range error, whichever comes first. `s` is the input the error names. -/
def parseDigits (s : String) : List Char → Nat → Except NumError Nat
  | [], n => .ok n
  | ch :: rest, n =>
    if 48 ≤ ch.toNat ∧ ch.toNat ≤ 57 then
      if n ≥ (2 ^ 64 - 1) / 10 + 1 then .error (.rangeError s)
      else if n * 10 + (ch.toNat - 48) > 2 ^ 64 - 1 then .error (.rangeError s)
      else parseDigits s rest (n * 10 + (ch.toNat - 48))
    else .error (.syntaxError s)

/-- Go's `strconv.Atoi` for a 64-bit `int`: an optional sign, then at least one
decimal digit, and a value within `[-2^63, 2^63 - 1]`. -/
def Atoi (s : String) : Except NumError Int :=
  let neg := s.data.head? = some '-'
  let digits := if s.data.head? = some '-' ∨ s.data.head? = some '+' then s.data.tail else s.data
  if digits = [] then .error (.syntaxError s)
  else
    match parseDigits s digits 0 with
    | .error err => .error err
    | .ok un =>
      if neg then
        if un > 2 ^ 63 then .error (.rangeError s) else .ok (-(un : Int))
      else
        if un ≥ 2 ^ 63 then .error (.rangeError s) else .ok (un : Int)

/-! ## `NewCategoryShardStatusList` -/

/-- The errors `NewCategoryShardStatusList` returns once the body is decoded. -/
inductive QueryError where
  | responseError (errorType msg : String)
  | invalidValue (shard : String) (err : NumError)
  | valueTypeInvalid (goType : String)
  | timeTypeInvalid (goType : String)
  deriving DecidableEq, Repr

/-- How a call ends: with a value, with a returned error (and a nil list), or
in a run-time panic `index out of range [index] with length len`. -/
inductive Outcome (α : Type) where
  | ok (a : α)
  | error (e : QueryError)
  | panic (index len : Nat)
  deriving DecidableEq, Repr

/-- The Go map `map[string]*CategoryShardStatus`: bindings with unique keys. -/
abbrev ShardStateMap := List (String × CategoryShardStatus)

/-- Map lookup `m[key]`. -/
def ShardStateMap.find (m : ShardStateMap) (key : String) : Option CategoryShardStatus :=
  match m with
  | [] => none
  | (k, v) :: rest => if k = key then some v else ShardStateMap.find rest key

/-- Map assignment `m[key] = state`. -/
def ShardStateMap.set (m : ShardStateMap) (key : String) (state : CategoryShardStatus) :
    ShardStateMap :=
  match m with
  | [] => [(key, state)]
  | (k, v) :: rest =>
    if k = key then (k, state) :: rest else (k, v) :: ShardStateMap.set rest key state

/-- Slice indexing `result.Value[i]`, which panics out of range. -/
def index (value : List JSONValue) (i : Nat) : Outcome JSONValue :=
  match value[i]? with
  | some v => .ok v
  | none => .panic i value.length

/-- One iteration of the loop over `resp.Data.Result` (lines 258-291). -/
def processResult (shardStateMap : ShardStateMap) (result : PrometheusResult) :
    Outcome ShardStateMap :=
  if result.Metric.ShardType ≠ "category" then .ok shardStateMap
  else
    match index result.Value 1 with
    | .panic i n => .panic i n
    | .error e => .error e
    | .ok (.string value) =>
      match Atoi value with
      | .error err => .error (.invalidValue result.Metric.Shard err)
      | .ok intValue =>
        match index result.Value 0 with
        | .panic i n => .panic i n
        | .error e => .error e
        | .ok (.number value) =>
          let state : CategoryShardStatus :=
            { Shard := result.Metric.Shard, FreeProductSlots := intValue, Time := ⟨value⟩ }
          match shardStateMap.find state.Shard with
          | some existingState =>
            if existingState.FreeProductSlots > state.FreeProductSlots then
              .ok (shardStateMap.set state.Shard state)
            else .ok shardStateMap
          | none => .ok (shardStateMap.set state.Shard state)
        | .ok value => .error (.timeTypeInvalid value.goType)
    | .ok value => .error (.valueTypeInvalid value.goType)

/-- The loop over `resp.Data.Result`, leaving at the first error or panic. -/
def processResults (shardStateMap : ShardStateMap) : List PrometheusResult →
    Outcome ShardStateMap
  | [] => .ok shardStateMap
  | result :: rest =>
    match processResult shardStateMap result with
    | .ok m => processResults m rest
    | .error e => .error e
    | .panic i n => .panic i n

/-- The map `NewCategoryShardStatusList` has built when it reaches line 293, for
a decoded response (lines 253-291). -/
def buildShardStateMap (resp : PrometheusResponse) : Outcome ShardStateMap :=
  if resp.Status = "error" then .error (.responseError resp.ErrorType resp.Error)
  else processResults [] resp.Data.Result

/-- The outcomes of `NewCategoryShardStatusList` on a decoded response: the
returned slice holds the values of the map in the order of a Go map iteration,
which the language leaves unspecified. -/
def NewCategoryShardStatusList (resp : PrometheusResponse)
    (out : Outcome CategoryShardStatusList) : Prop :=
  match buildShardStateMap resp, out with
  | .ok m, .ok shardStates => shardStates.Perm (m.map Prod.snd)
  | .error e, .error e1 => e = e1
  | .panic i n, .panic i1 n1 => i = i1 ∧ n = n1
  | _, _ => False

instance (resp : PrometheusResponse) (out : Outcome CategoryShardStatusList) :
    Decidable (NewCategoryShardStatusList resp out) := by
  unfold NewCategoryShardStatusList
  split <;> infer_instance

/-! ## `MarkdownMessage` -/

/-- Go's `len` of a string: its number of bytes. -/
def len (s : String) : Int := s.utf8ByteSize

/-- The function `repeatString`: append `pattern` to `body`, `count` times (none
when `count` is not positive). -/
def repeatString (body : String) (pattern : String) (count : Int) : String :=
  (List.replicate count.toNat pattern).foldl (fun b p => b ++ p) body

/-- The verb `%-Ns` of `fmt.Sprintf`: the string, padded on the right with
spaces up to `width` characters; a longer string is left as it is. -/
def sprintfLeftS (width : Int) (s : String) : String :=
  s ++ String.mk (List.replicate (width - s.length).toNat ' ')

/-- The verb `%-Nd` of `fmt.Sprintf`: the decimal rendering, padded on the
right like `%-Ns`. -/
def sprintfLeftD (width : Int) (n : Int) : String :=
  sprintfLeftS width (toString n)

/-- The function `addHeader`. -/
def addHeader (body : String) (shardTitle : String) (shardMaxLen : Int)
    (countTitle : String) (countMaxLen : Int) : String :=
  let body := body ++ "| "
  let body := body ++ shardTitle
  let body := repeatString body " " (shardMaxLen - len shardTitle + 1)
  let body := body ++ "| "
  let body := body ++ countTitle
  let body := repeatString body " " (countMaxLen - len countTitle + 1)
  body ++ "|\n"

/-- The function `addSeparator`. -/
def addSeparator (body : String) (shardMaxLen countMaxLen : Int) : String :=
  let body := body ++ "| "
  let body := repeatString body "-" shardMaxLen
  let body := body ++ " | "
  let body := repeatString body "-" countMaxLen
  body ++ " |\n"

/-- The first loop of `MarkdownMessage`: the largest `len(state.Shard)`, starting
from the length of the title. -/
def shardMaxLenOf (states : CategoryShardStatusList) (shardMaxLen : Int) : Int :=
  states.foldl (fun m state => if len state.Shard > m then len state.Shard else m) shardMaxLen

/-- One row, `fmt.Sprintf(stateFormat, state.Shard, state.FreeProductSlots)` with
`stateFormat` the format `| %-<shardMaxLen>s | %-<countMaxLen>d |` and a newline. -/
def stateRow (shardMaxLen countMaxLen : Int) (state : CategoryShardStatus) : String :=
  "| " ++ sprintfLeftS shardMaxLen state.Shard ++ " | " ++
    sprintfLeftD countMaxLen state.FreeProductSlots ++ " |\n"

/-- The message `tgbotapi.NewMessage(chatID, text)` with its parse mode. -/
structure MessageConfig where
  ChatID : Int
  Text : String
  ParseMode : String
  deriving DecidableEq, Repr

/-- The method `CategoryShardStatusList.MarkdownMessage`. -/
def MarkdownMessage (states : CategoryShardStatusList) (chatID : Int) : MessageConfig :=
  let shardTitle := "shard"
  let countTitle := "left"
  let shardMaxLen := shardMaxLenOf states (len shardTitle)
  let countMaxLen := len countTitle
  let body := "**Shard limit alert**\n\n```\n"
  let body := addSeparator body shardMaxLen countMaxLen
  let body := addHeader body shardTitle shardMaxLen countTitle countMaxLen
  let body := addSeparator body shardMaxLen countMaxLen
  let body := states.foldl (fun b state => b ++ stateRow shardMaxLen countMaxLen state) body
  let body := addSeparator body shardMaxLen countMaxLen
  let body := body ++ "```\n"
  { ChatID := chatID, Text := body, ParseMode := "markdown" }

/-- Cut a text at its newlines; `cur` holds the current line, last character first. -/
def splitLines : List Char → List Char → List String
  | [], cur => if cur = [] then [] else [String.mk cur.reverse]
  | c :: cs, cur =>
    if c = '\n' then String.mk cur.reverse :: splitLines cs [] else splitLines cs (c :: cur)

/-- The lines of a rendered table: those after the title, the blank line and the
opening code fence, up to the closing fence. -/
def tableLines (text : String) : List String :=
  ((splitLines text.data []).drop 3).takeWhile (fun line => line ≠ "```")

/-! ## `main` -/

/-- The method `CategoryShardStatusList.String`. -/
def CategoryShardStatusList.String (states : CategoryShardStatusList) : String :=
  "[" ++ ",".intercalate (states.map (fun state => state.Shard)) ++ "]"

/-- The filter loop of `main` (lines 346-352): a record above the threshold is
skipped, every other one is appended. -/
def alertShards (shardStatusList : CategoryShardStatusList) (AlertThreshold : Int) :
    CategoryShardStatusList :=
  shardStatusList.foldl
    (fun alert state => if state.FreeProductSlots > AlertThreshold then alert else alert ++ [state])
    []

/-- The comparison `main` hands to `sort.Slice`, on the elements at `i` and `j`. -/
def lessFree (si sj : CategoryShardStatus) : Bool :=
  sj.FreeProductSlots > si.FreeProductSlots

/-- The inner loop of Go's insertion sort: the new element moves left while it
is `less` than its left neighbour. The sorted prefix is held last element first. -/
def insertLess {α : Type} (less : α → α → Bool) (x : α) : List α → List α
  | [] => [x]
  | y :: ys => if less x y then y :: insertLess less x ys else x :: y :: ys

/-- The library call `sort.Slice(data, less)`, as the insertion sort
(`insertionSortLessFunc`) Go runs on slices of at most 12 elements: each element in
turn is moved into the sorted part before it. Longer slices go through the
pattern-defeating quicksort of the library, which is not modelled. -/
def sortSlice {α : Type} (less : α → α → Bool) (data : List α) : List α :=
  (data.foldl (fun sortedRev x => insertLess less x sortedRev) []).reverse

/-- What a run of `main` does after the query, in order. -/
inductive Event where
  | logNoShard
  | logAlert (shards : String)
  | sendLimitsAlert (alert : CategoryShardStatusList)
  | fatalQuery (e : QueryError)
  | fatalSend
  | panicked (index length : Nat)
  deriving DecidableEq, Repr

/-- How the process ends: `main` returns (exit 0), `log.Fatalf` (exit 1), or a
run-time panic. -/
inductive Exit where
  | returned
  | fatal
  | crashed
  deriving DecidableEq, Repr

/-- The trace and end of `main` from line 339 on, given the outcome of
`NewCategoryShardStatusList` and whether the Telegram send of a message succeeds. -/
def main (sendSucceeds : MessageConfig → Bool) (TelegramChatID : Int) (AlertThreshold : Int)
    (queried : Outcome CategoryShardStatusList) : List Event × Exit :=
  match queried with
  | .panic i n => ([.panicked i n], .crashed)
  | .error e => ([.fatalQuery e], .fatal)
  | .ok shardStatusList =>
    let alert := alertShards shardStatusList AlertThreshold
    if alert.length = 0 then ([.logNoShard], .returned)
    else
      let alert := sortSlice lessFree alert
      if sendSucceeds (MarkdownMessage alert TelegramChatID) then
        ([.logAlert (CategoryShardStatusList.String alert), .sendLimitsAlert alert], .returned)
      else
        ([.logAlert (CategoryShardStatusList.String alert), .sendLimitsAlert alert, .fatalSend],
          .fatal)

/-! ## Properties stated by the specification -/

/-- The integer a result entry carries: its second value, when that is a string
`strconv.Atoi` accepts. -/
def valueOf (result : PrometheusResult) : Option Int :=
  match result.Value[1]? with
  | some (JSONValue.string s) =>
    match Atoi s with
    | .ok v => some v
    | .error _ => none
  | _ => none

/-- A well-formed entry: a string value holding an integer and a numeric timestamp. -/
def wellFormed (result : PrometheusResult) : Bool :=
  match result.Value[1]?, result.Value[0]? with
  | some (JSONValue.string s), some (JSONValue.number _) =>
    match Atoi s with
    | .ok _ => true
    | .error _ => false
  | _, _ => false

/-- The values of the entries of `results` with shard type `category` and shard
label `shard`. -/
def categoryValues (results : List PrometheusResult) (shard : String) : List Int :=
  results.filterMap
    (fun e => if e.Metric.ShardType = "category" ∧ e.Metric.Shard = shard then valueOf e else none)

/-- The response with every entry removed whose shard type is not `category`. -/
def removeNonCategory (resp : PrometheusResponse) : PrometheusResponse :=
  { resp with Data := { resp.Data with
      Result := resp.Data.Result.filter (fun e => e.Metric.ShardType = "category") } }

/-- Whether an event is a call of `SendLimitsAlert`. -/
def Event.isSend : Event → Bool
  | .sendLimitsAlert _ => true
  | _ => false

/-! ## Proof devices -/

/-- The update of lines 284-290: a new shard is stored, a known one is replaced
only by a strictly smaller value. -/
def storeMin (m : ShardStateMap) (state : CategoryShardStatus) : ShardStateMap :=
  match m.find state.Shard with
  | some existingState =>
    if existingState.FreeProductSlots > state.FreeProductSlots then m.set state.Shard state
    else m
  | none => m.set state.Shard state

/-- What the loop maintains, `done` being the entries already read: the keys are
distinct, every binding is a record of its key holding the least value seen for
that shard, and a shard without binding has no category entry so far. -/
def LoopInv (m : ShardStateMap) (done : List PrometheusResult) : Prop :=
  (m.map Prod.fst).Nodup ∧
  (∀ k r, m.find k = some r → r.Shard = k ∧ r.FreeProductSlots ∈ categoryValues done k ∧
    ∀ v ∈ categoryValues done k, r.FreeProductSlots ≤ v) ∧
  (∀ k, m.find k = none → categoryValues done k = [])

/-! ## Concrete inputs -/

/-- The timestamp `1600000000.0` as a `float64`. -/
def ts0 : Float64 := ⟨4744497694393761792⟩

/-- The timestamp `1600000000.5` as a `float64`. -/
def ts1 : Float64 := ⟨4744497694395858944⟩

/-- A result entry with the given shard label, shard type and value array. -/
def entry (shard shardType : String) (value : List JSONValue) : PrometheusResult :=
  { Metric := { Name := "wbx_catalog_storage_limit", Shard := shard, ShardType := shardType },
    Value := value }

/-- A successful response with the given result entries. -/
def response (results : List PrometheusResult) : PrometheusResponse :=
  { Data := { ResultType := "vector", Result := results },
    Status := "success", ErrorType := "", Error := "", Warnings := [] }

/-- The example of the specification: entries `A:500`, `B:1500`, `A:300`. -/
def specExample : PrometheusResponse :=
  response
    [entry "A" "category" [.number ts0, .string "500"],
     entry "B" "category" [.number ts0, .string "1500"],
     entry "A" "category" [.number ts1, .string "300"]]

/-- The example with an entry of another shard type in between. -/
def mixedExample : PrometheusResponse :=
  response
    [entry "A" "category" [.number ts0, .string "500"],
     entry "A" "brand" [.number ts0, .string "7"],
     entry "B" "category" [.number ts0, .string "1500"],
     entry "A" "category" [.number ts1, .string "300"]]

/-- A category entry without value array, followed by one whose value is a number
instead of a string. -/
def shortThenMalformed : PrometheusResponse :=
  response
    [entry "A" "category" [],
     entry "B" "category" [.number ts0, .number ts1]]

/-- A single category entry whose value array is empty. -/
def missingValue : PrometheusResponse :=
  response [entry "A" "category" []]

/-- A single record with a five-digit value. -/
def wideValue : CategoryShardStatusList :=
  [{ Shard := "A", FreeProductSlots := 12345, Time := ⟨ts0⟩ }]

/-- A single record whose value equals the threshold `1000`. -/
def atThreshold : CategoryShardStatusList :=
  [{ Shard := "A", FreeProductSlots := 1000, Time := ⟨ts0⟩ }]

/-- Records on both sides of the threshold `1000`, unsorted. -/
def someRecords : CategoryShardStatusList :=
  [{ Shard := "B", FreeProductSlots := 1500, Time := ⟨ts0⟩ },
   { Shard := "C", FreeProductSlots := 1000, Time := ⟨ts0⟩ },
   { Shard := "A", FreeProductSlots := 300, Time := ⟨ts1⟩ }]

/-- Records all above the threshold `1000`. -/
def healthyRecords : CategoryShardStatusList :=
  [{ Shard := "B", FreeProductSlots := 1500, Time := ⟨ts0⟩ },
   { Shard := "C", FreeProductSlots := 1001, Time := ⟨ts0⟩ }]

/-! ## The map -/

theorem find_set_self (m : ShardStateMap) (key : String) (state : CategoryShardStatus) :
    (m.set key state).find key = some state := by
  induction m with
  | nil => simp [ShardStateMap.set, ShardStateMap.find]
  | cons p rest ih =>
    obtain ⟨k, v⟩ := p
    by_cases h : k = key
    · simp [ShardStateMap.set, ShardStateMap.find, h]
    · simp [ShardStateMap.set, ShardStateMap.find, h, ih]

theorem find_set_ne (m : ShardStateMap) (key other : String) (state : CategoryShardStatus)
    (hne : other ≠ key) : (m.set key state).find other = m.find other := by
  induction m with
  | nil =>
    have h : ¬ key = other := fun h => hne h.symm
    simp [ShardStateMap.set, ShardStateMap.find, h]
  | cons p rest ih =>
    obtain ⟨k, v⟩ := p
    by_cases h : k = key
    · subst h
      have h1 : ¬ k = other := fun h => hne h.symm
      simp [ShardStateMap.set, ShardStateMap.find, h1]
    · by_cases h2 : k = other
      · subst h2
        simp [ShardStateMap.set, ShardStateMap.find, h]
      · simp [ShardStateMap.set, ShardStateMap.find, h, h2, ih]

theorem find_of_mem (m : ShardStateMap) (key : String) (state : CategoryShardStatus)
    (hnd : (m.map Prod.fst).Nodup) (h : (key, state) ∈ m) : m.find key = some state := by
  induction m with
  | nil => simp at h
  | cons p rest ih =>
    obtain ⟨k, v⟩ := p
    simp only [List.map_cons, List.nodup_cons] at hnd
    rcases List.mem_cons.mp h with heq | hmem
    · cases heq
      simp [ShardStateMap.find]
    · have hk : k ≠ key := by
        intro e
        subst e
        exact hnd.1 (List.mem_map.mpr ⟨(k, state), hmem, rfl⟩)
      simp [ShardStateMap.find, hk, ih hnd.2 hmem]

theorem keys_set (m : ShardStateMap) (key : String) (state : CategoryShardStatus) :
    (m.set key state).map Prod.fst =
      if key ∈ m.map Prod.fst then m.map Prod.fst else m.map Prod.fst ++ [key] := by
  induction m with
  | nil => simp [ShardStateMap.set]
  | cons p rest ih =>
    obtain ⟨k, v⟩ := p
    by_cases h : k = key
    · simp [ShardStateMap.set, h]
    · have h1 : ¬ key = k := fun e => h e.symm
      by_cases h2 : key ∈ rest.map Prod.fst
      · simp only [ShardStateMap.set, h, if_false, List.map_cons, ih, h2, if_true,
          List.mem_cons, or_true]
      · simp only [ShardStateMap.set, h, if_false, List.map_cons, ih, h2, List.mem_cons, h1,
          or_self, List.cons_append]

theorem nodup_keys_set (m : ShardStateMap) (key : String) (state : CategoryShardStatus)
    (hnd : (m.map Prod.fst).Nodup) : ((m.set key state).map Prod.fst).Nodup := by
  rw [keys_set]
  split
  · exact hnd
  · rename_i h
    rw [List.nodup_append]
    refine ⟨hnd, List.nodup_singleton _, ?_⟩
    intro a ha hb
    simp only [List.mem_singleton] at hb
    exact h (hb ▸ ha)

/-! ## One iteration -/

theorem processResult_other (m : ShardStateMap) (e : PrometheusResult)
    (hcat : e.Metric.ShardType ≠ "category") : processResult m e = .ok m := by
  simp [processResult, hcat]

theorem processResult_wellFormed (m : ShardStateMap) (e : PrometheusResult)
    (hcat : e.Metric.ShardType = "category") (s : String) (v : Int) (f : Float64)
    (h1 : e.Value[1]? = some (JSONValue.string s)) (hv : Atoi s = .ok v)
    (h0 : e.Value[0]? = some (JSONValue.number f)) :
    processResult m e = .ok (storeMin m ⟨e.Metric.Shard, v, ⟨f⟩⟩) := by
  simp only [processResult, hcat, index, h1, hv, h0, storeMin]
  simp only [ne_eq, not_true_eq_false, if_false]
  split
  · split <;> rfl
  · rfl

theorem processResult_ok (m m1 : ShardStateMap) (e : PrometheusResult)
    (hcat : e.Metric.ShardType = "category") (h : processResult m e = .ok m1) :
    ∃ s v f, e.Value[1]? = some (JSONValue.string s) ∧ Atoi s = .ok v ∧
      e.Value[0]? = some (JSONValue.number f) ∧ m1 = storeMin m ⟨e.Metric.Shard, v, ⟨f⟩⟩ := by
  cases h1 : e.Value[1]? with
  | none => simp [processResult, index, hcat, h1] at h
  | some j1 =>
    cases j1 with
    | string s =>
      cases hv : Atoi s with
      | error err => simp [processResult, index, hcat, h1, hv] at h
      | ok v =>
        cases h0 : e.Value[0]? with
        | none => simp [processResult, index, hcat, h1, hv, h0] at h
        | some j0 =>
          cases j0 with
          | number f =>
            rw [processResult_wellFormed m e hcat s v f h1 hv h0] at h
            cases h
            exact ⟨s, v, f, rfl, hv, rfl, rfl⟩
          | _ => simp [processResult, index, hcat, h1, hv, h0] at h
    | _ => simp [processResult, index, hcat, h1] at h

/-! ## The invariant of the loop -/

theorem categoryValues_append_other (done : List PrometheusResult) (e : PrometheusResult)
    (hcat : e.Metric.ShardType ≠ "category") (k : String) :
    categoryValues (done ++ [e]) k = categoryValues done k := by
  simp [categoryValues, List.filterMap_append, hcat]

theorem categoryValues_append_category (done : List PrometheusResult) (e : PrometheusResult)
    (hcat : e.Metric.ShardType = "category") (v : Int) (hv : valueOf e = some v) (k : String) :
    categoryValues (done ++ [e]) k =
      if e.Metric.Shard = k then categoryValues done k ++ [v] else categoryValues done k := by
  by_cases hk : e.Metric.Shard = k
  · simp [categoryValues, List.filterMap_append, hcat, hk, hv]
  · simp [categoryValues, List.filterMap_append, hcat, hk]

theorem valueOf_of_parsed (e : PrometheusResult) (s : String) (v : Int)
    (h1 : e.Value[1]? = some (JSONValue.string s)) (hv : Atoi s = .ok v) :
    valueOf e = some v := by
  simp [valueOf, h1, hv]

theorem loopInv_nil : LoopInv [] [] := by
  refine ⟨by simp, ?_, ?_⟩
  · intro k r h
    simp [ShardStateMap.find] at h
  · intro k _
    simp [categoryValues]

theorem loopInv_storeMin (m : ShardStateMap) (done : List PrometheusResult)
    (e : PrometheusResult) (hcat : e.Metric.ShardType = "category") (v : Int)
    (hv : valueOf e = some v) (t : Time) (hinv : LoopInv m done) :
    LoopInv (storeMin m ⟨e.Metric.Shard, v, t⟩) (done ++ [e]) := by
  obtain ⟨hnd, hsome, hnone⟩ := hinv
  have hcv := categoryValues_append_category done e hcat v hv
  unfold storeMin
  cases hf : m.find e.Metric.Shard with
  | none =>
    simp only
    refine ⟨nodup_keys_set m _ _ hnd, ?_, ?_⟩
    · intro k r hk
      by_cases hke : k = e.Metric.Shard
      · subst hke
        rw [find_set_self] at hk
        cases hk
        rw [hcv, hnone _ hf]
        simp
      · rw [find_set_ne m _ k _ hke] at hk
        rw [hcv, if_neg (fun h => hke h.symm)]
        exact hsome k r hk
    · intro k hk
      by_cases hke : k = e.Metric.Shard
      · subst hke
        rw [find_set_self] at hk
        cases hk
      · rw [find_set_ne m _ k _ hke] at hk
        rw [hcv, if_neg (fun h => hke h.symm)]
        exact hnone k hk
  | some existingState =>
    obtain ⟨hs, hmem, hle⟩ := hsome _ _ hf
    simp only
    by_cases hgt : existingState.FreeProductSlots > v
    · rw [if_pos hgt]
      refine ⟨nodup_keys_set m _ _ hnd, ?_, ?_⟩
      · intro k r hk
        by_cases hke : k = e.Metric.Shard
        · subst hke
          rw [find_set_self] at hk
          cases hk
          rw [hcv]
          simp only [if_true, List.mem_append, List.mem_singleton, or_true, true_and]
          intro w hw
          rcases hw with hw | hw
          · exact le_trans (le_of_lt hgt) (hle w hw)
          · exact le_of_eq hw.symm
        · rw [find_set_ne m _ k _ hke] at hk
          rw [hcv, if_neg (fun h => hke h.symm)]
          exact hsome k r hk
      · intro k hk
        by_cases hke : k = e.Metric.Shard
        · subst hke
          rw [find_set_self] at hk
          cases hk
        · rw [find_set_ne m _ k _ hke] at hk
          rw [hcv, if_neg (fun h => hke h.symm)]
          exact hnone k hk
    · rw [if_neg hgt]
      refine ⟨hnd, ?_, ?_⟩
      · intro k r hk
        by_cases hke : k = e.Metric.Shard
        · subst hke
          rw [hf] at hk
          cases hk
          rw [hcv]
          simp only [if_true, List.mem_append, List.mem_singleton]
          refine ⟨hs, Or.inl hmem, ?_⟩
          intro w hw
          rcases hw with hw | hw
          · exact hle w hw
          · rw [hw]
            exact not_lt.mp hgt
        · rw [hcv, if_neg (fun h => hke h.symm)]
          exact hsome k r hk
      · intro k hk
        by_cases hke : k = e.Metric.Shard
        · subst hke
          rw [hf] at hk
          cases hk
        · rw [hcv, if_neg (fun h => hke h.symm)]
          exact hnone k hk

theorem loopInv_processResult (m m1 : ShardStateMap) (done : List PrometheusResult)
    (e : PrometheusResult) (hinv : LoopInv m done) (h : processResult m e = .ok m1) :
    LoopInv m1 (done ++ [e]) := by
  by_cases hcat : e.Metric.ShardType = "category"
  · obtain ⟨s, v, f, h1, hv, _, hm⟩ := processResult_ok m m1 e hcat h
    rw [hm]
    exact loopInv_storeMin m done e hcat v (valueOf_of_parsed e s v h1 hv) ⟨f⟩ hinv
  · rw [processResult_other m e hcat] at h
    cases h
    obtain ⟨hnd, hsome, hnone⟩ := hinv
    refine ⟨hnd, ?_, ?_⟩
    · intro k r hk
      rw [categoryValues_append_other done e hcat]
      exact hsome k r hk
    · intro k hk
      rw [categoryValues_append_other done e hcat]
      exact hnone k hk

theorem loopInv_processResults (rest : List PrometheusResult) :
    ∀ (m m1 : ShardStateMap) (done : List PrometheusResult), LoopInv m done →
      processResults m rest = .ok m1 → LoopInv m1 (done ++ rest) := by
  induction rest with
  | nil =>
    intro m m1 done hinv h
    simp only [processResults] at h
    cases h
    simpa using hinv
  | cons e rest ih =>
    intro m m1 done hinv h
    simp only [processResults] at h
    cases hstep : processResult m e with
    | ok m2 =>
      rw [hstep] at h
      have := ih m2 m1 (done ++ [e]) (loopInv_processResult m m2 done e hinv hstep) h
      simpa using this
    | error err => rw [hstep] at h; cases h
    | panic i n => rw [hstep] at h; cases h

theorem loopInv_build (resp : PrometheusResponse) (m : ShardStateMap)
    (h : buildShardStateMap resp = .ok m) : LoopInv m resp.Data.Result := by
  unfold buildShardStateMap at h
  split at h
  · cases h
  · simpa using loopInv_processResults resp.Data.Result [] m [] loopInv_nil h

theorem returned_iff (resp : PrometheusResponse) (l : CategoryShardStatusList) :
    NewCategoryShardStatusList resp (.ok l) ↔
      ∃ m, buildShardStateMap resp = .ok m ∧ l.Perm (m.map Prod.snd) := by
  unfold NewCategoryShardStatusList
  cases buildShardStateMap resp with
  | ok m => simp
  | error e => simp
  | panic i n => simp

theorem wellFormed_parsed (e : PrometheusResult) (h : wellFormed e = true) :
    ∃ s v f, e.Value[1]? = some (JSONValue.string s) ∧ Atoi s = .ok v ∧
      e.Value[0]? = some (JSONValue.number f) := by
  unfold wellFormed at h
  split at h
  · rename_i s f h1 h0
    split at h
    · rename_i v hv
      exact ⟨s, v, f, h1, hv, h0⟩
    · cases h
  · cases h

theorem processResults_total (rest : List PrometheusResult) :
    ∀ (m : ShardStateMap),
      (∀ e ∈ rest, e.Metric.ShardType = "category" → wellFormed e = true) →
      ∃ m1, processResults m rest = .ok m1 := by
  induction rest with
  | nil => intro m _; exact ⟨m, rfl⟩
  | cons e rest ih =>
    intro m hwf
    have hrest : ∀ x ∈ rest, x.Metric.ShardType = "category" → wellFormed x = true :=
      fun x hx => hwf x (List.mem_cons_of_mem _ hx)
    by_cases hcat : e.Metric.ShardType = "category"
    · obtain ⟨s, v, f, h1, hv, h0⟩ := wellFormed_parsed e (hwf e (List.mem_cons_self _ _) hcat)
      simp only [processResults, processResult_wellFormed m e hcat s v f h1 hv h0]
      exact ih _ hrest
    · simp only [processResults, processResult_other m e hcat]
      exact ih _ hrest

theorem processResults_filter (rest : List PrometheusResult) :
    ∀ (m : ShardStateMap),
      processResults m (rest.filter (fun e => e.Metric.ShardType = "category")) =
        processResults m rest := by
  induction rest with
  | nil => intro m; rfl
  | cons e rest ih =>
    intro m
    by_cases hcat : e.Metric.ShardType = "category"
    · simp only [List.filter_cons, hcat, decide_True, if_true, processResults]
      cases processResult m e with
      | ok m2 => exact ih m2
      | error err => rfl
      | panic i n => rfl
    · simp only [List.filter_cons, hcat, decide_False, processResults,
        processResult_other m e hcat]
      exact ih m

theorem shards_eq_keys (m : ShardStateMap) (done : List PrometheusResult)
    (hinv : LoopInv m done) :
    (m.map Prod.snd).map (fun r => r.Shard) = m.map Prod.fst := by
  rw [List.map_map]
  apply List.map_congr_left
  intro p hp
  obtain ⟨k, r⟩ := p
  exact (hinv.2.1 k r (find_of_mem m k r hinv.1 hp)).1

/-! ## Claims on `NewCategoryShardStatusList` -/

/-- C1: on a response whose category entries are all well-formed, a list is
returned (unless the response has status `error`), and every record of a returned
list holds the minimum of the values of the category entries with its shard label:
the value occurs among them and none of them is smaller. -/
theorem freeProductSlots_is_minimum (resp : PrometheusResponse)
    (hwf : ∀ e ∈ resp.Data.Result, e.Metric.ShardType = "category" → wellFormed e = true) :
    (resp.Status ≠ "error" → ∃ l, NewCategoryShardStatusList resp (.ok l)) ∧
    ∀ l, NewCategoryShardStatusList resp (.ok l) → ∀ r ∈ l,
      r.FreeProductSlots ∈ categoryValues resp.Data.Result r.Shard ∧
      ∀ v ∈ categoryValues resp.Data.Result r.Shard, r.FreeProductSlots ≤ v := by
  constructor
  · intro hst
    obtain ⟨m, hm⟩ := processResults_total resp.Data.Result [] hwf
    refine ⟨m.map Prod.snd, (returned_iff resp _).mpr ⟨m, ?_, List.Perm.refl _⟩⟩
    simp [buildShardStateMap, hst, hm]
  · intro l hl r hr
    obtain ⟨m, hm, hperm⟩ := (returned_iff resp l).mp hl
    have hinv := loopInv_build resp m hm
    obtain ⟨p, hp, hpr⟩ := List.mem_map.mp (hperm.mem_iff.mp hr)
    obtain ⟨k, r1⟩ := p
    simp only at hpr
    subst hpr
    obtain ⟨hs, hmem, hle⟩ := hinv.2.1 k r1 (find_of_mem m k r1 hinv.1 hp)
    rw [hs]
    exact ⟨hmem, hle⟩

/-! ## Filter and sort of `main` -/

theorem alertShards_foldl (thr : Int) (l : CategoryShardStatusList) :
    ∀ acc : CategoryShardStatusList,
      l.foldl (fun alert state =>
          if state.FreeProductSlots > thr then alert else alert ++ [state]) acc =
        acc ++ l.filter (fun r => decide (r.FreeProductSlots ≤ thr)) := by
  induction l with
  | nil => intro acc; simp
  | cons r rest ih =>
    intro acc
    by_cases h : r.FreeProductSlots > thr
    · have h1 : ¬ r.FreeProductSlots ≤ thr := not_le.mpr h
      simp only [List.foldl_cons, h, if_true, ih, List.filter_cons, h1, decide_False]
      simp
    · have h1 : r.FreeProductSlots ≤ thr := not_lt.mp h
      simp only [List.foldl_cons, h, if_false, ih, List.filter_cons, h1, decide_True, if_true]
      simp

theorem alertShards_eq_filter (l : CategoryShardStatusList) (thr : Int) :
    alertShards l thr = l.filter (fun r => decide (r.FreeProductSlots ≤ thr)) := by
  unfold alertShards
  rw [alertShards_foldl]
  simp

theorem insertLess_perm {α : Type} (less : α → α → Bool) (x : α) (l : List α) :
    (insertLess less x l).Perm (x :: l) := by
  induction l with
  | nil => exact List.Perm.refl _
  | cons y ys ih =>
    unfold insertLess
    split
    · exact ((List.Perm.cons y ih).trans (List.Perm.swap x y ys))
    · exact List.Perm.refl _

theorem insertLess_foldl_perm {α : Type} (less : α → α → Bool) (data : List α) :
    ∀ acc : List α,
      (data.foldl (fun sortedRev x => insertLess less x sortedRev) acc).Perm (data ++ acc) := by
  induction data with
  | nil => intro acc; exact List.Perm.refl _
  | cons x rest ih =>
    intro acc
    simp only [List.foldl_cons]
    refine (ih _).trans ?_
    refine (List.Perm.append_left rest (insertLess_perm less x acc)).trans ?_
    simp

theorem sortSlice_perm {α : Type} (less : α → α → Bool) (data : List α) :
    (sortSlice less data).Perm data := by
  unfold sortSlice
  refine (List.reverse_perm _).trans ?_
  simpa using insertLess_foldl_perm less data []

theorem insertLess_descending (x : CategoryShardStatus) (l : CategoryShardStatusList)
    (h : l.Pairwise (fun a b => b.FreeProductSlots ≤ a.FreeProductSlots)) :
    (insertLess lessFree x l).Pairwise (fun a b => b.FreeProductSlots ≤ a.FreeProductSlots) := by
  induction l with
  | nil => simp [insertLess]
  | cons y ys ih =>
    rw [List.pairwise_cons] at h
    unfold insertLess
    by_cases hlt : lessFree x y = true
    · rw [if_pos hlt]
      rw [List.pairwise_cons]
      refine ⟨?_, ih h.2⟩
      intro b hb
      rcases List.mem_cons.mp ((insertLess_perm lessFree x ys).mem_iff.mp hb) with hbx | hbys
      · subst hbx
        simp only [lessFree, gt_iff_lt, decide_eq_true_eq] at hlt
        exact le_of_lt hlt
      · exact h.1 b hbys
    · rw [if_neg hlt]
      simp only [lessFree, gt_iff_lt, decide_eq_true_eq, not_lt] at hlt
      rw [List.pairwise_cons]
      refine ⟨?_, List.pairwise_cons.mpr h⟩
      intro b hb
      rcases List.mem_cons.mp hb with hby | hbys
      · subst hby
        exact hlt
      · exact le_trans (h.1 b hbys) hlt

theorem insertLess_foldl_descending (data : CategoryShardStatusList) :
    ∀ acc : CategoryShardStatusList,
      acc.Pairwise (fun a b => b.FreeProductSlots ≤ a.FreeProductSlots) →
      (data.foldl (fun sortedRev x => insertLess lessFree x sortedRev) acc).Pairwise
        (fun a b => b.FreeProductSlots ≤ a.FreeProductSlots) := by
  induction data with
  | nil => intro acc h; exact h
  | cons x rest ih =>
    intro acc h
    simp only [List.foldl_cons]
    exact ih _ (insertLess_descending x acc h)

theorem sortSlice_ascending (data : CategoryShardStatusList) :
    (sortSlice lessFree data).Pairwise
      (fun a b => a.FreeProductSlots ≤ b.FreeProductSlots) := by
  unfold sortSlice
  rw [List.pairwise_reverse]
  exact insertLess_foldl_descending data [] List.Pairwise.nil

theorem main_no_alert (sendSucceeds : MessageConfig → Bool) (chat thr : Int)
    (l : CategoryShardStatusList) (h : alertShards l thr = []) :
    main sendSucceeds chat thr (.ok l) = ([.logNoShard], .returned) := by
  simp [main, h]

theorem main_sends (sendSucceeds : MessageConfig → Bool) (chat thr : Int)
    (l : CategoryShardStatusList) (h : alertShards l thr ≠ []) :
    (main sendSucceeds chat thr (.ok l)).1.filter Event.isSend =
      [.sendLimitsAlert (sortSlice lessFree (alertShards l thr))] := by
  have hlen : ¬ (alertShards l thr).length = 0 := by
    simpa [List.length_eq_zero] using h
  simp only [main, hlen, if_false]
  split <;> simp [List.filter, Event.isSend]

/-! ## Claims -/

/-- C2: no two records of a list returned by `NewCategoryShardStatusList` have the
same shard name, and the same holds for the list `main` filters out of it, for that
list once sorted, and for every list `main` hands to `SendLimitsAlert`. -/
theorem shard_names_distinct (resp : PrometheusResponse) (l : CategoryShardStatusList)
    (h : NewCategoryShardStatusList resp (.ok l)) :
    (l.map (fun r => r.Shard)).Nodup ∧
    ∀ thr : Int,
      ((alertShards l thr).map (fun r => r.Shard)).Nodup ∧
      ((sortSlice lessFree (alertShards l thr)).map (fun r => r.Shard)).Nodup ∧
      ∀ (sendSucceeds : MessageConfig → Bool) (chat : Int) (alert : CategoryShardStatusList),
        Event.sendLimitsAlert alert ∈ (main sendSucceeds chat thr (.ok l)).1 →
          (alert.map (fun r => r.Shard)).Nodup := by
  obtain ⟨m, hm, hperm⟩ := (returned_iff resp l).mp h
  have hinv := loopInv_build resp m hm
  have hl : (l.map (fun r => r.Shard)).Nodup := by
    refine ((hperm.map _).nodup_iff).mpr ?_
    rw [shards_eq_keys m _ hinv]
    exact hinv.1
  have hfilter : ∀ thr : Int, ((alertShards l thr).map (fun r => r.Shard)).Nodup := by
    intro thr
    rw [alertShards_eq_filter]
    exact hl.sublist ((List.filter_sublist l).map _)
  have hsort : ∀ thr : Int,
      ((sortSlice lessFree (alertShards l thr)).map (fun r => r.Shard)).Nodup := by
    intro thr
    exact (((sortSlice_perm lessFree (alertShards l thr)).map _).nodup_iff).mpr (hfilter thr)
  refine ⟨hl, fun thr => ⟨hfilter thr, hsort thr, ?_⟩⟩
  intro sendSucceeds chat alert hmem
  by_cases hempty : alertShards l thr = []
  · rw [main_no_alert sendSucceeds chat thr l hempty] at hmem
    simp at hmem
  · have hsend : Event.sendLimitsAlert alert ∈
        (main sendSucceeds chat thr (.ok l)).1.filter Event.isSend :=
      List.mem_filter.mpr ⟨hmem, rfl⟩
    rw [main_sends sendSucceeds chat thr l hempty] at hsend
    simp only [List.mem_singleton, Event.sendLimitsAlert.injEq] at hsend
    rw [hsend]
    exact hsort thr

/-- C2, on the example with an entry of another shard type: the returned records
`B`, `A` have distinct shard names. -/
theorem shard_names_distinct_witness :
    NewCategoryShardStatusList mixedExample
      (.ok [⟨"B", 1500, ⟨ts0⟩⟩, ⟨"A", 300, ⟨ts1⟩⟩]) ∧
    (["B", "A"] : List String).Nodup :=
  ⟨by decide,
   (shard_names_distinct mixedExample [⟨"B", 1500, ⟨ts0⟩⟩, ⟨"A", 300, ⟨ts1⟩⟩] (by decide)).1⟩

/-- C1, on the example of the specification: entries `A:500`, `B:1500`, `A:300`
are well-formed, the records `A:300` and `B:1500` are returned, and `300` is the
least of the values `500`, `300` of shard `A`. -/
theorem freeProductSlots_is_minimum_witness :
    (∀ e ∈ specExample.Data.Result, e.Metric.ShardType = "category" → wellFormed e = true) ∧
    NewCategoryShardStatusList specExample (.ok [⟨"A", 300, ⟨ts1⟩⟩, ⟨"B", 1500, ⟨ts0⟩⟩]) ∧
    categoryValues specExample.Data.Result "A" = [500, 300] ∧
    ((300 : Int) ∈ categoryValues specExample.Data.Result "A" ∧
      ∀ v ∈ categoryValues specExample.Data.Result "A", (300 : Int) ≤ v) :=
  ⟨by decide, by decide, by decide,
   (freeProductSlots_is_minimum specExample (by decide)).2
     [⟨"A", 300, ⟨ts1⟩⟩, ⟨"B", 1500, ⟨ts0⟩⟩] (by decide) ⟨"A", 300, ⟨ts1⟩⟩ (by decide)⟩

/-- C3: entries whose shard type is not `category` are excluded: every outcome of
`NewCategoryShardStatusList` on a response (a returned list, an error, a panic) is an
outcome on the response with those entries removed, and conversely. -/
theorem non_category_excluded (resp : PrometheusResponse)
    (out : Outcome CategoryShardStatusList) :
    (NewCategoryShardStatusList resp out ↔
      NewCategoryShardStatusList (removeNonCategory resp) out) ∧
    ∀ e ∈ (removeNonCategory resp).Data.Result, e.Metric.ShardType = "category" := by
  constructor
  · have hbuild : buildShardStateMap (removeNonCategory resp) = buildShardStateMap resp := by
      simp only [buildShardStateMap, removeNonCategory]
      rw [processResults_filter]
    unfold NewCategoryShardStatusList
    rw [hbuild]
  · intro e he
    simp only [removeNonCategory, List.mem_filter, decide_eq_true_eq] at he
    exact he.2

/-- C4: the alert list built in `main` is the list of the records whose
`FreeProductSlots` is at most the threshold, in their order: a record is in it
exactly when it is in the input and not above the threshold. -/
theorem alertShards_exact (l : CategoryShardStatusList) (thr : Int) :
    alertShards l thr = l.filter (fun r => decide (r.FreeProductSlots ≤ thr)) ∧
    ∀ r, r ∈ alertShards l thr ↔ r ∈ l ∧ r.FreeProductSlots ≤ thr := by
  refine ⟨alertShards_eq_filter l thr, fun r => ?_⟩
  rw [alertShards_eq_filter]
  simp [List.mem_filter]

/-- C5: when the alert list is not empty, `main` calls `SendLimitsAlert` with one
list, which is a permutation of the filtered records and is in non-decreasing order
of `FreeProductSlots`. -/
theorem alert_sorted_permutation (sendSucceeds : MessageConfig → Bool) (chat thr : Int)
    (l : CategoryShardStatusList) (h : alertShards l thr ≠ []) :
    ∃ alert, (main sendSucceeds chat thr (.ok l)).1.filter Event.isSend =
        [.sendLimitsAlert alert] ∧
      alert.Perm (alertShards l thr) ∧
      alert.Pairwise (fun a b => a.FreeProductSlots ≤ b.FreeProductSlots) :=
  ⟨sortSlice lessFree (alertShards l thr), main_sends sendSucceeds chat thr l h,
    sortSlice_perm lessFree _, sortSlice_ascending _⟩

/-- C5, on records `B:1500`, `C:1000`, `A:300` with threshold `1000`: the filtered
list `C`, `A` is not empty and a sorted permutation of it is handed over. -/
theorem alert_sorted_permutation_witness :
    alertShards someRecords 1000 ≠ [] ∧
    ∃ alert, (main (fun _ => true) 1 1000 (.ok someRecords)).1.filter Event.isSend =
        [.sendLimitsAlert alert] ∧
      alert.Perm (alertShards someRecords 1000) ∧
      alert.Pairwise (fun a b => a.FreeProductSlots ≤ b.FreeProductSlots) :=
  ⟨by decide, alert_sorted_permutation (fun _ => true) 1 1000 someRecords (by decide)⟩

/-- C8: when no record is at or below the threshold, `main` logs that no shard
requires an increase and returns, without any call of `SendLimitsAlert`; when some
record is at or below the threshold, `SendLimitsAlert` is called exactly once. -/
theorem send_once_or_never (sendSucceeds : MessageConfig → Bool) (chat thr : Int)
    (l : CategoryShardStatusList) :
    ((∀ r ∈ l, ¬ r.FreeProductSlots ≤ thr) →
      main sendSucceeds chat thr (.ok l) = ([.logNoShard], .returned) ∧
      (main sendSucceeds chat thr (.ok l)).1.filter Event.isSend = []) ∧
    ((∃ r ∈ l, r.FreeProductSlots ≤ thr) →
      ((main sendSucceeds chat thr (.ok l)).1.filter Event.isSend).length = 1) := by
  constructor
  · intro hnone
    have hempty : alertShards l thr = [] := by
      rw [alertShards_eq_filter, List.filter_eq_nil_iff]
      intro r hr
      simpa using hnone r hr
    rw [main_no_alert sendSucceeds chat thr l hempty]
    exact ⟨rfl, rfl⟩
  · rintro ⟨r, hr, hle⟩
    have hne : alertShards l thr ≠ [] := by
      intro hempty
      have hmem : r ∈ alertShards l thr := by
        rw [alertShards_eq_filter]
        exact List.mem_filter.mpr ⟨hr, by simpa using hle⟩
      rw [hempty] at hmem
      cases hmem
    rw [main_sends sendSucceeds chat thr l hne]
    rfl

/-- C8, with threshold `1000`: records `B:1500`, `C:1001` lead to no send and a
normal return, records `B:1500`, `C:1000`, `A:300` to exactly one send. -/
theorem send_once_or_never_witness :
    (main (fun _ => true) 1 1000 (.ok healthyRecords) = ([.logNoShard], .returned) ∧
      (main (fun _ => true) 1 1000 (.ok healthyRecords)).1.filter Event.isSend = []) ∧
    ((main (fun _ => false) 1 1000 (.ok someRecords)).1.filter Event.isSend).length = 1 :=
  ⟨(send_once_or_never (fun _ => true) 1 1000 healthyRecords).1 (by decide),
   (send_once_or_never (fun _ => false) 1 1000 someRecords).2 (by decide)⟩

/-! ## Malformed entries -/

theorem processResult_malformed (m : ShardStateMap) (e : PrometheusResult)
    (hcat : e.Metric.ShardType = "category") (hlen : 2 ≤ e.Value.length)
    (hbad : wellFormed e = false) : ∃ err, processResult m e = .error err := by
  cases h1 : e.Value[1]? with
  | none =>
    rw [List.getElem?_eq_none_iff] at h1
    omega
  | some j1 =>
    cases j1 with
    | string s =>
      cases hv : Atoi s with
      | error err => exact ⟨_, by simp [processResult, index, hcat, h1, hv]; rfl⟩
      | ok v =>
        cases h0 : e.Value[0]? with
        | none =>
          rw [List.getElem?_eq_none_iff] at h0
          omega
        | some j0 =>
          cases j0 with
          | number f => simp [wellFormed, h1, h0, hv] at hbad
          | _ => exact ⟨_, by simp [processResult, index, hcat, h1, hv, h0]; rfl⟩
    | _ => exact ⟨_, by simp [processResult, index, hcat, h1]; rfl⟩

theorem processResults_malformed (rest : List PrometheusResult) :
    ∀ (m : ShardStateMap),
      (∀ e ∈ rest, e.Metric.ShardType = "category" → 2 ≤ e.Value.length) →
      (∃ e ∈ rest, e.Metric.ShardType = "category" ∧ wellFormed e = false) →
      ∃ err, processResults m rest = .error err := by
  induction rest with
  | nil => intro m _ hbad; simp at hbad
  | cons e rest ih =>
    intro m hlen hbad
    have hlenRest : ∀ x ∈ rest, x.Metric.ShardType = "category" → 2 ≤ x.Value.length :=
      fun x hx => hlen x (List.mem_cons_of_mem _ hx)
    by_cases hcat : e.Metric.ShardType = "category"
    · cases hwf : wellFormed e with
      | false =>
        obtain ⟨err, herr⟩ :=
          processResult_malformed m e hcat (hlen e (List.mem_cons_self _ _) hcat) hwf
        exact ⟨err, by simp [processResults, herr]⟩
      | true =>
        obtain ⟨s, v, f, h1, hv, h0⟩ := wellFormed_parsed e hwf
        simp only [processResults, processResult_wellFormed m e hcat s v f h1 hv h0]
        apply ih _ hlenRest
        obtain ⟨b, hb, hbcat, hbwf⟩ := hbad
        rcases List.mem_cons.mp hb with hbe | hbrest
        · subst hbe
          rw [hwf] at hbwf
          cases hbwf
        · exact ⟨b, hbrest, hbcat, hbwf⟩
    · simp only [processResults, processResult_other m e hcat]
      apply ih _ hlenRest
      obtain ⟨b, hb, hbcat, hbwf⟩ := hbad
      rcases List.mem_cons.mp hb with hbe | hbrest
      · subst hbe
        exact absurd hbcat hcat
      · exact ⟨b, hbrest, hbcat, hbwf⟩

/-- When every category entry has a value array of at least two elements, one
malformed category entry makes the call return an error and no list. -/
theorem error_of_malformed (resp : PrometheusResponse)
    (hlen : ∀ e ∈ resp.Data.Result, e.Metric.ShardType = "category" → 2 ≤ e.Value.length)
    (hbad : ∃ e ∈ resp.Data.Result, e.Metric.ShardType = "category" ∧ wellFormed e = false) :
    ∃ err, NewCategoryShardStatusList resp (.error err) ∧
      ∀ out, NewCategoryShardStatusList resp out → out = .error err := by
  have hbuild : ∃ err, buildShardStateMap resp = .error err := by
    unfold buildShardStateMap
    split
    · exact ⟨_, rfl⟩
    · exact processResults_malformed resp.Data.Result [] hlen hbad
  obtain ⟨err, herr⟩ := hbuild
  refine ⟨err, ?_, ?_⟩
  · simp [NewCategoryShardStatusList, herr]
  · intro out hout
    unfold NewCategoryShardStatusList at hout
    rw [herr] at hout
    cases out with
    | ok l => simp at hout
    | error e1 => simp at hout; rw [hout]
    | panic i n => simp at hout

/-! ## Where the code departs from the claims -/

/-- C6: for the single record `A:12345` the data row of the rendered table is 17
characters long while the separator and header lines are 16 long: the value column
keeps the width of the label `left`. -/
theorem wide_value_breaks_table :
    tableLines (MarkdownMessage wideValue 1).Text =
      ["| ----- | ---- |", "| shard | left |", "| ----- | ---- |", "| A     | 12345 |",
       "| ----- | ---- |"] ∧
    (tableLines (MarkdownMessage wideValue 1).Text).map String.length = [16, 16, 16, 17, 16] := by
  decide

/-- C7, as stated, fails: with threshold `1000` and the single record `A:1000`,
`main` calls `SendLimitsAlert`, so "an alert is sent exactly when some record has
`FreeProductSlots` less than the threshold" does not hold there. -/
theorem alert_sent_at_threshold :
    (main (fun _ => true) 1 1000 (.ok atThreshold)).1 =
      [.logAlert "[A]", .sendLimitsAlert atThreshold] ∧
    ¬ ((∃ alert, Event.sendLimitsAlert alert ∈ (main (fun _ => true) 1 1000 (.ok atThreshold)).1) ↔
        ∃ r ∈ atThreshold, r.FreeProductSlots < 1000) := by
  refine ⟨by decide, fun h => ?_⟩
  have hlt : ∃ r ∈ atThreshold, r.FreeProductSlots < 1000 := h.mp ⟨atThreshold, by decide⟩
  revert hlt
  decide

/-- C7, amended: `main` calls `SendLimitsAlert` exactly when at least one record has
`FreeProductSlots` less than or equal to the alert threshold. -/
theorem alert_sent_iff_at_or_below (sendSucceeds : MessageConfig → Bool) (chat thr : Int)
    (l : CategoryShardStatusList) :
    (∃ alert, Event.sendLimitsAlert alert ∈ (main sendSucceeds chat thr (.ok l)).1) ↔
      ∃ r ∈ l, r.FreeProductSlots ≤ thr := by
  by_cases hempty : alertShards l thr = []
  · rw [main_no_alert sendSucceeds chat thr l hempty]
    constructor
    · rintro ⟨alert, hmem⟩
      simp at hmem
    · rintro ⟨r, hr, hle⟩
      have hmem : r ∈ alertShards l thr := by
        rw [alertShards_eq_filter]
        exact List.mem_filter.mpr ⟨hr, by simpa using hle⟩
      rw [hempty] at hmem
      cases hmem
  · constructor
    · intro _
      obtain ⟨r, hr⟩ := List.exists_mem_of_ne_nil _ hempty
      rw [alertShards_eq_filter, List.mem_filter] at hr
      exact ⟨r, hr.1, by simpa using hr.2⟩
    · intro _
      have hsend := main_sends sendSucceeds chat thr l hempty
      have hmem : Event.sendLimitsAlert (sortSlice lessFree (alertShards l thr)) ∈
          (main sendSucceeds chat thr (.ok l)).1.filter Event.isSend := by
        rw [hsend]
        exact List.mem_singleton.mpr rfl
      exact ⟨_, (List.mem_filter.mp hmem).1⟩

/-- C9: on a category entry without value array followed by a category entry
whose value is a number, the call ends in the panic `index out of range [1] with
length 0` and returns no error. -/
theorem short_then_malformed_panics :
    (∃ e ∈ shortThenMalformed.Data.Result,
      e.Metric.ShardType = "category" ∧ e.Value[1]? = some (JSONValue.number ts1)) ∧
    NewCategoryShardStatusList shortThenMalformed (.panic 1 0) ∧
    ∀ err, ¬ NewCategoryShardStatusList shortThenMalformed (.error err) := by
  refine ⟨⟨entry "B" "category" [.number ts0, .number ts1], by simp [shortThenMalformed, response],
    rfl, rfl⟩, by decide, ?_⟩
  intro err
  have hbuild : buildShardStateMap shortThenMalformed = .panic 1 0 := by decide
  simp [NewCategoryShardStatusList, hbuild]

/-- C10: on a single category entry whose value array is empty, the access
`result.Value[1]` is out of bounds: the only outcome is the panic `index out of range
[1] with length 0`, neither a list nor an error. -/
theorem missing_value_panics :
    NewCategoryShardStatusList missingValue (.panic 1 0) ∧
    ∀ out, NewCategoryShardStatusList missingValue out → out = .panic 1 0 := by
  refine ⟨by decide, ?_⟩
  intro out hout
  have hbuild : buildShardStateMap missingValue = .panic 1 0 := by decide
  unfold NewCategoryShardStatusList at hout
  rw [hbuild] at hout
  cases out with
  | ok l => simp at hout
  | error e1 => simp at hout
  | panic i n =>
    simp at hout
    rw [hout.1, hout.2]

end QueryAlert
